import Mathlib

/- Verification of the hyperparameter-evolution engine of src/train.py:
   the `opt.evolve` branch of `main` (lines 858-1104) and the helper
   `generate_individual` (lines 1107-1141).

   Modelling conventions.  Python floats are modelled as rationals; Python
   `int()` on a float is truncation toward zero (`ratTrunc`).  Every call
   into `random` and every call of the external fitness evaluator
   (`train`) is replaced by an explicit oracle argument, so the engine is
   a deterministic function of the oracles.  Python list aliasing is
   modelled by a heap of cells: `GAState.cells` holds the gene vectors and
   `GAState.population` holds cell ids, so that the non-crossover branch of
   child construction (line 1079, `child = population[parent1_index]`),
   which in Python shares the parent's list object, shares the parent's
   cell id here, and the in-place mutation of lines 1085-1089 writes to
   the heap.  File and terminal I/O (the generation snapshot, the
   `print_mutation` call, plotting) is omitted. -/

set_option allowUnsafeReducibility true
attribute [local semireducible] Rat.add Rat.mul Rat.inv Rat.sub Rat.ofScientific Rat.div

/-- Truncation toward zero, the behaviour of Python `int()` on a float. -/
def ratTrunc (x : ℚ) : ℤ := if 0 ≤ x then ⌊x⌋ else ⌈x⌉

/-- GA configuration constants of src/train.py lines 903-911, together with
the generation count `opt.evolve` (the CLI parameter `G`). -/
structure GAConfig where
  pop_size : ℕ
  mutation_rate_min : ℚ
  mutation_rate_max : ℚ
  crossover_rate_min : ℚ
  crossover_rate_max : ℚ
  min_elite_size : ℕ
  max_elite_size : ℕ
  tournament_size_min : ℕ
  tournament_size_max : ℕ
  evolve : ℕ

/-- Constants hard-coded at src/train.py lines 903-911. -/
def referenceConfig (G : ℕ) : GAConfig :=
  ⟨50, 1/100, 1/2, 1/2, 1, 2, 5, 2, 10, G⟩

/-- Adaptive elite size, src/train.py lines 1013-1015:
`elite_size = min_elite_size + int((max_elite_size - min_elite_size) * (generation / opt.evolve))`. -/
def elite_size (min_elite_size max_elite_size evolve g : ℕ) : ℤ :=
  min_elite_size +
    ratTrunc (((max_elite_size : ℚ) - (min_elite_size : ℚ)) * ((g : ℚ) / (evolve : ℚ)))

/-- Adaptive tournament size, src/train.py lines 1044-1048:
`max(max(2, tournament_size_min), int(min(tournament_size_max, pop_size) - (generation / (opt.evolve / 10))))`. -/
def tournament_size (tournament_size_min tournament_size_max pop_size evolve g : ℕ) : ℤ :=
  max (max 2 (tournament_size_min : ℤ))
    (ratTrunc (((min tournament_size_max pop_size : ℕ) : ℚ) - (g : ℚ) / ((evolve : ℚ) / 10)))

/-- Tournament-size formula exactly as the specification words it (no
truncation to an integer): `clamp(tournament_size_max - g/(G/10),
lower = max(2, tournament_size_min), upper = min(tournament_size_max, pop_size))`. -/
def tournament_size_specFormula (tournament_size_min tournament_size_max pop_size evolve g : ℕ) : ℚ :=
  min ((min tournament_size_max pop_size : ℕ) : ℚ)
    (max (max 2 (tournament_size_min : ℚ)) ((tournament_size_max : ℚ) - (g : ℚ) / ((evolve : ℚ) / 10)))

/-- Adaptive crossover rate, src/train.py lines 1070-1073. -/
def crossover_rate (crossover_rate_min crossover_rate_max : ℚ) (evolve g : ℕ) : ℚ :=
  max crossover_rate_min (min crossover_rate_max (crossover_rate_max - (g : ℚ) / (evolve : ℚ)))

/-- Adaptive mutation rate, src/train.py lines 1081-1084. -/
def mutation_rate (mutation_rate_min mutation_rate_max : ℚ) (evolve g : ℕ) : ℚ :=
  max mutation_rate_min (min mutation_rate_max (mutation_rate_max - (g : ℚ) / (evolve : ℚ)))

/-- Gene vector of one Individual: positional list of gene values, aligned
with `hyp_GA.keys()` (src/train.py line 997). -/
abbrev Individual := List ℚ

/-- Heap model of the Python lists involved in the population: `cells` is the
heap of list objects (gene vectors) and `population` the list of references
(cell ids).  The non-crossover branch of child construction shares the
parent's cell id, exactly as line 1079 shares the parent's list object. -/
structure GAState where
  cells : List Individual
  population : List ℕ

/-- Random draws consumed while building one child (lines 1064-1090):
`r1`, `r2` are the two `random.randint(0, pop_size - 1)` results, `crossU`
the `random.uniform(0, 1)` compared with the crossover rate, `cut` the
`random.randint(1, len(hyp_GA) - 1)` crossover point, `mutU j` the
`random.uniform(0, 1)` compared with the mutation rate at gene `j`, and
`mutD j` the `random.uniform(-0.1, 0.1)` perturbation at gene `j`. -/
structure ChildRand where
  r1 : ℕ
  r2 : ℕ
  crossU : ℚ
  cut : ℕ
  mutU : ℕ → ℚ
  mutD : ℕ → ℚ

/-- Oracles consumed by one generation: `fitness i` is `results[2]` of the
training run on the `i`-th Individual (lines 1024, 1038), `tour t` is
`random.sample(range(pop_size), tournament_size)` of the `t`-th tournament
(lines 1050-1051), and `child k` holds the draws for the `k`-th child. -/
structure GenRand where
  fitness : ℕ → ℚ
  tour : ℕ → List ℕ
  child : ℕ → ChildRand

/-- Mating-pool read `selected_indices[random.randint(0, pop_size - 1)]`
of lines 1065-1068. -/
def parentIndex (selected_indices : List ℕ) (r : ℕ) : ℕ := selected_indices.getD r 0

/-- Clamp of lines 1088-1089:
`min(max(child[j], gene_ranges[j][0]), gene_ranges[j][1])`. -/
def clampGene (lohi : ℚ × ℚ) (v : ℚ) : ℚ := min (max v lohi.1) lohi.2

/-- Per-gene mutation loop of lines 1085-1089, acting on heap cell `cid`
(in Python: on the list object bound to `child`, in place). -/
def mutateCellGenes (gene_ranges : List (ℚ × ℚ)) (rate : ℚ) (mutU mutD : ℕ → ℚ)
    (numGenes cid : ℕ) (cells : List Individual) : List Individual :=
  (List.range numGenes).foldl
    (fun cs j =>
      if mutU j < rate then
        let v := cs.getD cid []
        cs.set cid (v.set j (clampGene (gene_ranges.getD j (0, 0)) (v.getD j 0 + mutD j)))
      else cs)
    cells

/-- Construction of one child, lines 1064-1090.  With crossover (line 1074)
the child is a fresh list `population[parent1_index][:cut] +
population[parent2_index][cut:]`, allocated as a new heap cell; without
crossover (line 1079) the child IS `population[parent1_index]`, i.e. the
parent's own cell id.  The mutation loop then writes to that cell.  Returns
the updated heap and the child's cell id. -/
def buildChild (cfg : GAConfig) (gene_ranges : List (ℚ × ℚ)) (numGenes g : ℕ)
    (selected_indices : List ℕ) (population : List ℕ) (cells : List Individual)
    (cr : ChildRand) : List Individual × ℕ :=
  let parent1_index := parentIndex selected_indices cr.r1
  let parent2_index := parentIndex selected_indices cr.r2
  let mrate := mutation_rate cfg.mutation_rate_min cfg.mutation_rate_max cfg.evolve g
  if cr.crossU < crossover_rate cfg.crossover_rate_min cfg.crossover_rate_max cfg.evolve g then
    let p1 := cells.getD (population.getD parent1_index 0) []
    let p2 := cells.getD (population.getD parent2_index 0) []
    let child := p1.take cr.cut ++ p2.drop cr.cut
    (mutateCellGenes gene_ranges mrate cr.mutU cr.mutD numGenes cells.length (cells ++ [child]),
     cells.length)
  else
    let cid := population.getD parent1_index 0
    (mutateCellGenes gene_ranges mrate cr.mutU cr.mutD numGenes cid cells, cid)

/-- The `for _ in range(pop_size)` child loop of lines 1063-1090 followed by
the replacement `population = next_generation` of line 1092. -/
def buildNextGeneration (cfg : GAConfig) (gene_ranges : List (ℚ × ℚ)) (numGenes g : ℕ)
    (selected_indices : List ℕ) (st : GAState) (crs : ℕ → ChildRand) : GAState :=
  let res := (List.range cfg.pop_size).foldl
    (fun acc k =>
      let bc := buildChild cfg gene_ranges numGenes g selected_indices st.population acc.1 (crs k)
      (bc.1, acc.2 ++ [bc.2]))
    (st.cells, ([] : List ℕ))
  ⟨res.1, res.2⟩

/-- Insertion into an ascending-sorted list. -/
def insertSorted (x : ℚ) : List ℚ → List ℚ
  | [] => [x]
  | y :: ys => if x ≤ y then x :: y :: ys else y :: insertSorted x ys

/-- Ascending sort, modelling Python `sorted` at line 1060. -/
def sortQ (l : List ℚ) : List ℚ := l.foldr insertSorted []

/-- Python slice `l[-e:]`: the last `e` elements, except that `l[-0:]` is
the whole list. -/
def lastSlice (l : List ℚ) (e : ℕ) : List ℚ := if e = 0 then l else l.drop (l.length - e)

/-- Elite indices, lines 1059-1060: every `i in range(pop_size)` whose
fitness value occurs among `sorted(fitness_scores)[-elite_size:]`. -/
def eliteIndices (pop_size : ℕ) (fitness_scores : List ℚ) (e : ℕ) : List ℕ :=
  (List.range pop_size).filter
    (fun i => decide (fitness_scores.getD i 0 ∈ lastSlice (sortQ fitness_scores) e))

/-- Python `max` on a nonempty list of floats (first maximal value). -/
def maxQ : List ℚ → ℚ
  | [] => 0
  | x :: xs => xs.foldl max x

/-- Tournament winner, lines 1050-1056:
`tournament_indices[tournament_fitness.index(max(tournament_fitness))]`. -/
def winnerIndex (fitness_scores : List ℚ) (tournament_indices : List ℕ) : ℕ :=
  let tournament_fitness := tournament_indices.map (fun j => fitness_scores.getD j 0)
  tournament_indices.getD
    (tournament_fitness.findIdx (fun x => decide (x = maxQ tournament_fitness))) 0

/-- The `selected_indices` pool of lines 1041-1061: `pop_size - elite_size`
tournament winners, then the elite indices appended by line 1061. -/
def matingPool (cfg : GAConfig) (g : ℕ) (fitness_scores : List ℚ) (tour : ℕ → List ℕ) : List ℕ :=
  let e := elite_size cfg.min_elite_size cfg.max_elite_size cfg.evolve g
  ((List.range ((cfg.pop_size : ℤ) - e).toNat).map
    (fun t => winnerIndex fitness_scores (tour t))) ++
    eliteIndices cfg.pop_size fitness_scores e.toNat

/-- One generation body, lines 999-1092: evaluate every Individual of the
current population (fitness oracle), select the mating pool, build the next
generation.  Returns the new state and this generation's `fitness_scores`. -/
def runGeneration (cfg : GAConfig) (gene_ranges : List (ℚ × ℚ)) (numGenes g : ℕ)
    (st : GAState) (R : GenRand) : GAState × List ℚ :=
  let fitness_scores := (List.range st.population.length).map R.fitness
  (buildNextGeneration cfg gene_ranges numGenes g
      (matingPool cfg g fitness_scores R.tour) st R.child,
   fitness_scores)

/-- Population state at the start of generation `g` (after `g` full
iterations of the loop at line 999). -/
def evolveState (cfg : GAConfig) (gene_ranges : List (ℚ × ℚ)) (numGenes : ℕ)
    (R : ℕ → GenRand) (st0 : GAState) : ℕ → GAState
  | 0 => st0
  | g + 1 =>
    (runGeneration cfg gene_ranges numGenes g
      (evolveState cfg gene_ranges numGenes R st0 g) (R g)).1

/-- Gene vector of the `i`-th Individual of a state (dereference the cell). -/
def derefInd (st : GAState) (i : ℕ) : Individual :=
  st.cells.getD (st.population.getD i 0) []

/-- The `fitness_scores` variable as it stands after the generation loop
(line 1094): the scores of the last evaluated generation.  For `G = 0` the
loop body never ran and the variable is unbound (`NameError`), hence
`none`. -/
def lastFitnessScores (cfg : GAConfig) (gene_ranges : List (ℚ × ℚ)) (numGenes : ℕ)
    (R : ℕ → GenRand) (st0 : GAState) : ℕ → Option (List ℚ)
  | 0 => none
  | g + 1 =>
    some (runGeneration cfg gene_ranges numGenes g
      (evolveState cfg gene_ranges numGenes R st0 g) (R g)).2

/-- The reported best solution, lines 1094-1096:
`best_index = fitness_scores.index(max(fitness_scores))` and
`best_individual = population[best_index]` — evaluated AFTER the loop, when
`population` has already been replaced by the children of the last
generation (line 1092). -/
def finalReport (cfg : GAConfig) (gene_ranges : List (ℚ × ℚ)) (numGenes : ℕ)
    (R : ℕ → GenRand) (st0 : GAState) (G : ℕ) : Option Individual :=
  (lastFitnessScores cfg gene_ranges numGenes R st0 G).map
    (fun fs =>
      derefInd (evolveState cfg gene_ranges numGenes R st0 G)
        (fs.findIdx (fun x => decide (x = maxQ fs))))

/-- Python `random.uniform(a, b)` as implemented: `a + (b - a) * r` with
`r` the underlying `random()` draw in `[0, 1)`. -/
def uniformQ (a b r : ℚ) : ℚ := a + (b - a) * r

/-- src/train.py lines 1107-1141: one random Individual, gene `i` drawn
uniformly from `input_ranges[i]`; `rs i` is the `random()` draw behind the
`i`-th `random.uniform` call. -/
def generate_individual (input_ranges : List (ℚ × ℚ)) (individual_length : ℕ)
    (rs : ℕ → ℚ) : Individual :=
  (List.range individual_length).map
    (fun i => uniformQ (input_ranges.getD i (0, 0)).1 (input_ranges.getD i (0, 0)).2 (rs i))

/-- Dictionary lookup `value[k]` in one serialized Individual (gene name to
value); gene names are modelled as numeric identifiers. -/
def lookupGene (entry : List (ℕ × ℚ)) (k : ℕ) : Option ℚ :=
  (entry.find? (fun e => decide (e.1 = k))).map (fun e => e.2)

/-- Resume-mode seed parsing, lines 966-970: each entry of the resume file
becomes the vector `[value[k] for k in hyp_GA.keys()]`, entries in file
order; a missing gene name raises `KeyError`, modelled as `none`. -/
def seedIndividuals (hyp_GA_keys : List ℕ) (entries : List (List (ℕ × ℚ))) :
    Option (List Individual) :=
  entries.mapM (fun entry => hyp_GA_keys.mapM (lookupGene entry))

/-- Population seeding, lines 985-992.  `initial_values` is initialised to
`[]` at line 959 and is never `None`, so the `if initial_values is None`
branch at line 985 is dead code; when `pop_size ≤ 1` neither branch assigns
`population`, and its first use raises `NameError` — modelled as `none`.
Otherwise `pop_size - len(initial_values)` random Individuals are built
(`randoms k` stands for the `k`-th `generate_individual(gene_ranges,
len(hyp_GA))` call) and each seed is PREPENDED by
`population = [initial_value] + population` (line 992). -/
def seedPopulation (pop_size : ℕ) (initial_values : List Individual)
    (randoms : ℕ → Individual) : Option (List Individual) :=
  if 1 < pop_size then
    some (initial_values.foldl (fun population iv => [iv] ++ population)
      ((List.range (pop_size - initial_values.length)).map randoms))
  else none

/-- Initial heap state for a freshly seeded population: every Individual is
its own fresh list object (resume entries are fresh `list(...)` copies and
generated Individuals are fresh lists). -/
def initialState (pop : List Individual) : GAState := ⟨pop, List.range pop.length⟩

/-- The `del_` list of lines 941-942: keys of the meta entries whose first
component is `False`.  Hyperparameter names are modelled as numeric
identifiers throughout. -/
def delKeys (meta0 : List (ℕ × Bool × ℚ × ℚ)) : List ℕ :=
  (meta0.filter (fun e => e.2.1 == false)).map (fun e => e.1)

/-- The `meta` dictionary after the deletion loop of lines 944-945. -/
def metaKept (meta0 : List (ℕ × Bool × ℚ × ℚ)) : List (ℕ × Bool × ℚ × ℚ) :=
  meta0.filter (fun e => decide (¬ e.1 ∈ delKeys meta0))

/-- The `hyp_GA` dictionary after the deletion loop of lines 944-946. -/
def hypKept (meta0 : List (ℕ × Bool × ℚ × ℚ)) (hyp : List (ℕ × ℚ)) : List (ℕ × ℚ) :=
  hyp.filter (fun e => decide (¬ e.1 ∈ delKeys meta0))

/-- The dictionary access `meta[k]` of lines 950-951 for `k` a key of
`hyp_GA`; `none` models the `KeyError` on an absent key. -/
def metaLookup (meta0 : List (ℕ × Bool × ℚ × ℚ)) (e : ℕ × ℚ) : Option (Bool × ℚ × ℚ) :=
  ((metaKept meta0).find? (fun m => decide (m.1 = e.1))).map (fun m => m.2)

/-- Gene-space construction, lines 940-951: delete the non-mutable keys
from both `meta` and `hyp_GA` (a `del hyp_GA[item]` with an absent key
raises `KeyError`, modelled as `none`), then build `lower_limit` and
`upper_limit` by looking up `meta[k]` for every remaining key of `hyp_GA`
(a key without a meta entry raises `KeyError`, modelled as `none`). -/
def buildGeneSpace (meta0 : List (ℕ × Bool × ℚ × ℚ)) (hyp : List (ℕ × ℚ)) :
    Option (List (ℕ × ℚ) × List ℚ × List ℚ) :=
  if (delKeys meta0).all (fun k => hyp.any (fun e => decide (e.1 = k))) then
    match (hypKept meta0 hyp).mapM (metaLookup meta0) with
    | some metas =>
      some (hypKept meta0 hyp, metas.map (fun v => v.2.1), metas.map (fun v => v.2.2))
    | none => none
  else none

/-- Bounds discipline for one gene vector: every position lies within the
corresponding entry of `gene_ranges`. -/
def InBounds (gene_ranges : List (ℚ × ℚ)) (v : Individual) : Prop :=
  ∀ j, j < v.length →
    (gene_ranges.getD j (0, 0)).1 ≤ v.getD j 0 ∧ v.getD j 0 ≤ (gene_ranges.getD j (0, 0)).2

/-- Well-formed gene ranges: lower bound at most upper bound, per gene. -/
def RangesOK (gene_ranges : List (ℚ × ℚ)) : Prop := ∀ p ∈ gene_ranges, p.1 ≤ p.2

/-- Well-formed heap state: every heap cell is a gene vector of the right
length and within bounds, the population is nonempty, and every population
entry references a heap cell. -/
def WFState (gene_ranges : List (ℚ × ℚ)) (numGenes : ℕ) (st : GAState) : Prop :=
  (∀ c ∈ st.cells, c.length = numGenes ∧ InBounds gene_ranges c) ∧
  st.population ≠ [] ∧ ∀ id ∈ st.population, id < st.cells.length

lemma ratTrunc_of_nonneg {x : ℚ} (h : 0 ≤ x) : ratTrunc x = ⌊x⌋ := if_pos h

lemma ratTrunc_mono {x y : ℚ} (h : x ≤ y) : ratTrunc x ≤ ratTrunc y := by
  unfold ratTrunc
  by_cases hx : 0 ≤ x
  · rw [if_pos hx, if_pos (le_trans hx h)]
    exact Int.floor_le_floor h
  · rw [if_neg hx]
    by_cases hy : 0 ≤ y
    · rw [if_pos hy]
      exact le_trans (Int.ceil_le.mpr (by exact_mod_cast le_of_not_le hx))
        (Int.floor_nonneg.mpr hy)
    · rw [if_neg hy]
      exact Int.ceil_le_ceil h

lemma ratTrunc_le_self_of_nonneg {x : ℚ} (h : 0 ≤ x) : (ratTrunc x : ℚ) ≤ x := by
  rw [ratTrunc_of_nonneg h]; exact Int.floor_le x

/-- Claim C4: for every generation `g` in `[0, G)` with `G ≥ 1`, the elite
size equals `elite_min + floor((elite_max - elite_min) * g / G)`; it is
monotonically non-decreasing in `g` and always lies within
`[elite_min, elite_max]`; with `elite_min = 2`, `elite_max = 5`, `G = 10`,
at `g = 5` it equals `3`. -/
theorem c4_elite_size (emin emax G : ℕ) (hle : emin ≤ emax) (hG : 1 ≤ G) :
    (∀ g : ℕ, elite_size emin emax G g = emin + ⌊((emax : ℚ) - emin) * g / G⌋) ∧
    (∀ g g' : ℕ, g ≤ g' → elite_size emin emax G g ≤ elite_size emin emax G g') ∧
    (∀ g : ℕ, g < G → (emin : ℤ) ≤ elite_size emin emax G g ∧ elite_size emin emax G g ≤ emax) ∧
    elite_size 2 5 10 5 = 3 := by
  have hGQ : (0 : ℚ) < G := by exact_mod_cast hG
  have hsub : (0 : ℚ) ≤ (emax : ℚ) - emin := by
    have : (emin : ℚ) ≤ emax := by exact_mod_cast hle
    linarith
  have harg : ∀ g : ℕ, (0 : ℚ) ≤ ((emax : ℚ) - emin) * ((g : ℚ) / (G : ℚ)) := fun g =>
    mul_nonneg hsub (div_nonneg (Nat.cast_nonneg g) (Nat.cast_nonneg G))
  refine ⟨fun g => ?_, fun g g' hgg => ?_, fun g hg => ⟨?_, ?_⟩, by decide⟩
  · unfold elite_size
    rw [ratTrunc_of_nonneg (harg g), mul_div_assoc]
  · unfold elite_size
    have : ((emax : ℚ) - emin) * ((g : ℚ) / (G : ℚ)) ≤ ((emax : ℚ) - emin) * ((g' : ℚ) / (G : ℚ)) := by
      apply mul_le_mul_of_nonneg_left _ hsub
      exact (div_le_div_iff_of_pos_right hGQ).mpr (by exact_mod_cast hgg)
    exact add_le_add_left (ratTrunc_mono this) _
  · unfold elite_size
    have : (0 : ℤ) ≤ ratTrunc (((emax : ℚ) - emin) * ((g : ℚ) / (G : ℚ))) := by
      rw [ratTrunc_of_nonneg (harg g)]
      exact Int.floor_nonneg.mpr (harg g)
    omega
  · unfold elite_size
    have hdiv : (g : ℚ) / (G : ℚ) ≤ 1 := by
      rw [div_le_one hGQ]
      exact_mod_cast le_of_lt hg
    have hargle : ((emax : ℚ) - emin) * ((g : ℚ) / (G : ℚ)) ≤ ((emax : ℚ) - emin) :=
      mul_le_of_le_one_right hsub hdiv
    have : ratTrunc (((emax : ℚ) - emin) * ((g : ℚ) / (G : ℚ))) ≤ (emax : ℤ) - emin := by
      rw [ratTrunc_of_nonneg (harg g)]
      have h2 : ((emax : ℚ) - emin) = (((emax : ℤ) - emin : ℤ) : ℚ) := by push_cast; ring
      calc ⌊((emax : ℚ) - emin) * ((g : ℚ) / (G : ℚ))⌋ ≤ ⌊((emax : ℚ) - emin)⌋ :=
            Int.floor_le_floor hargle
        _ = (emax : ℤ) - emin := by rw [h2, Int.floor_intCast]
    omega

/-- Witness for C4 at `elite_min = 2`, `elite_max = 5`, `G = 10`. -/
theorem c4_elite_size_witness : elite_size 2 5 10 5 = 3 :=
  (c4_elite_size 2 5 10 (by decide) (by decide)).2.2.2

lemma ratTrunc_le_of_le_intCast {z : ℚ} {n : ℤ} (hn : 0 ≤ n) (h : z ≤ n) : ratTrunc z ≤ n := by
  unfold ratTrunc
  split_ifs with hz
  · calc ⌊z⌋ ≤ ⌊(n : ℚ)⌋ := Int.floor_le_floor h
      _ = n := Int.floor_intCast n
  · exact le_trans (Int.ceil_le.mpr (by exact_mod_cast le_of_not_le hz)) hn

/-- Counterexample to claim C5: at `tournament_size_min = 2`,
`tournament_size_max = 10`, `pop_size = 50`, `G = 3`, `g = 1`, the code
(src/train.py lines 1044-1048) yields `6`, while the specification's clamp
formula (with no integer truncation) yields `20/3`, so the tournament size
does not equal the claimed formula. -/
theorem c5_counterexample :
    tournament_size 2 10 50 3 1 = 6 ∧
    tournament_size_specFormula 2 10 50 3 1 = 20/3 ∧
    ¬ ((6 : ℚ) = 20/3) := by decide

/-- Claim C5 (amended): the tournament size equals
`max(max(2, tournament_size_min), int(min(tournament_size_max, pop_size) - g/(G/10)))`,
i.e. the spec's clamp formula holds only after truncating to an integer and
subtracting from `min(tournament_size_max, pop_size)`; writing it as a clamp,
the upper clamp at `min(tournament_size_max, pop_size)` is implied.  The size
is non-increasing in `g`, never falls below `max(2, tournament_size_min)` and
never exceeds `min(tournament_size_max, pop_size)`. -/
theorem c5_tournament_size (tmin tmax pop G : ℕ) (hG : 1 ≤ G)
    (hlu : max 2 (tmin : ℤ) ≤ min (tmax : ℤ) (pop : ℤ)) :
    (∀ g : ℕ, tournament_size tmin tmax pop G g =
      min (min (tmax : ℤ) (pop : ℤ))
        (max (max 2 (tmin : ℤ))
          (ratTrunc (((min tmax pop : ℕ) : ℚ) - (g : ℚ) / ((G : ℚ) / 10))))) ∧
    (∀ g g' : ℕ, g ≤ g' →
      tournament_size tmin tmax pop G g' ≤ tournament_size tmin tmax pop G g) ∧
    (∀ g : ℕ, max 2 (tmin : ℤ) ≤ tournament_size tmin tmax pop G g ∧
      tournament_size tmin tmax pop G g ≤ min (tmax : ℤ) (pop : ℤ)) := by
  have hU0 : (0 : ℤ) ≤ min (tmax : ℤ) (pop : ℤ) := le_trans (by positivity) hlu
  have hUcast : (((min tmax pop : ℕ) : ℚ)) = ((min (tmax : ℤ) (pop : ℤ) : ℤ) : ℚ) := by
    push_cast
    rfl
  have hGQ : (0 : ℚ) < (G : ℚ) / 10 := by
    have : (0 : ℚ) < (G : ℚ) := by exact_mod_cast hG
    positivity
  have hd0 : ∀ g : ℕ, (0 : ℚ) ≤ (g : ℚ) / ((G : ℚ) / 10) :=
    fun g => div_nonneg (Nat.cast_nonneg g) (le_of_lt hGQ)
  have htle : ∀ g : ℕ,
      ratTrunc (((min tmax pop : ℕ) : ℚ) - (g : ℚ) / ((G : ℚ) / 10)) ≤
        min (tmax : ℤ) (pop : ℤ) := by
    intro g
    apply ratTrunc_le_of_le_intCast hU0
    rw [← hUcast]
    linarith [hd0 g]
  have hmaxle : ∀ g : ℕ, tournament_size tmin tmax pop G g ≤ min (tmax : ℤ) (pop : ℤ) := by
    intro g
    unfold tournament_size
    exact max_le hlu (htle g)
  refine ⟨fun g => ?_, fun g g' hgg => ?_, fun g => ⟨?_, hmaxle g⟩⟩
  · exact (min_eq_right (hmaxle g)).symm
  · unfold tournament_size
    apply max_le (le_max_left _ _)
    apply le_max_of_le_right
    apply ratTrunc_mono
    have : (g : ℚ) / ((G : ℚ) / 10) ≤ (g' : ℚ) / ((G : ℚ) / 10) :=
      (div_le_div_iff_of_pos_right hGQ).mpr (by exact_mod_cast hgg)
    linarith
  · exact le_max_left _ _

/-- Witness for the amended C5 at the source's constants
(`tournament_size_min = 2`, `tournament_size_max = 10`, `pop_size = 50`),
`G = 10`, `g = 3`. -/
theorem c5_tournament_size_witness :
    max 2 ((2 : ℕ) : ℤ) ≤ tournament_size 2 10 50 10 3 ∧
    tournament_size 2 10 50 10 3 ≤ min ((10 : ℕ) : ℤ) ((50 : ℕ) : ℤ) :=
  (c5_tournament_size 2 10 50 10 (by decide) (by decide)).2.2 3


/-- Claim C1 (code bug witness): after the generation loop, `best_index` is
the argmax of the last generation's `fitness_scores` (line 1094), but
`population` was already replaced by the never-evaluated children at line
1092, so `best_individual = population[best_index]` (line 1095) is a member
of the later, unevaluated population.  Concrete run: `pop_size = 2`,
`G = 1`, two genes, initial population `[[0,0],[7,7]]`, fitness `[1, 9]`,
both children crossover copies of Individual `0`, no mutation: the
Individual evaluated to the maximal fitness `9` is `[7, 7]`, yet the code
reports `[0, 0]`. -/
theorem c1_best_report_bug :
    lastFitnessScores ⟨2, 1/100, 1/2, 1/2, 1, 2, 5, 2, 10, 1⟩ [(0, 10), (0, 10)] 2
        (fun _ => ⟨fun i => if i = 1 then 9 else 1, fun _ => [],
          fun _ => ⟨0, 0, 0, 1, fun _ => 1, fun _ => 0⟩⟩)
        ⟨[[0, 0], [7, 7]], [0, 1]⟩ 1 = some [1, 9] ∧
    [(1 : ℚ), 9].findIdx (fun x => decide (x = maxQ [1, 9])) = 1 ∧
    derefInd (evolveState ⟨2, 1/100, 1/2, 1/2, 1, 2, 5, 2, 10, 1⟩ [(0, 10), (0, 10)] 2
        (fun _ => ⟨fun i => if i = 1 then 9 else 1, fun _ => [],
          fun _ => ⟨0, 0, 0, 1, fun _ => 1, fun _ => 0⟩⟩)
        ⟨[[0, 0], [7, 7]], [0, 1]⟩ 0) 1 = [7, 7] ∧
    finalReport ⟨2, 1/100, 1/2, 1/2, 1, 2, 5, 2, 10, 1⟩ [(0, 10), (0, 10)] 2
        (fun _ => ⟨fun i => if i = 1 then 9 else 1, fun _ => [],
          fun _ => ⟨0, 0, 0, 1, fun _ => 1, fun _ => 0⟩⟩)
        ⟨[[0, 0], [7, 7]], [0, 1]⟩ 1 = some [0, 0] ∧
    ¬ (([0, 0] : Individual) = [7, 7]) := by decide

/-- Claim C2 (code bug witness): building the next generation DOES modify
the current population.  In the non-crossover branch (line 1079) the child
is the very list object `population[parent1_index]`, so the in-place
mutation of lines 1085-1089 rewrites that Individual of the current
population.  Concrete run at generation `g = 1` of `G = 2`, `pop_size = 2`,
one gene bounded `[0, 1]`, population `[[1/2], [0]]`, fitness `[0, 1]`:
`elite_size = 3`, so both Individuals are elites and the mating pool is
`[0, 1]`; child `0` draws `crossU = 1/2` (no crossover, since the
crossover rate is `1/2`) and a mutation of `+1/4` on its single gene; the
elite Individual `0` of the current population afterwards reads `[3/4]`,
no longer `[1/2]`. -/
theorem c2_population_aliasing_bug :
    derefInd ⟨[[1/2], [0]], [0, 1]⟩ 0 = [1/2] ∧
    (elite_size 2 5 2 1).toNat = 3 ∧
    0 ∈ eliteIndices 2 [0, 1] 3 ∧
    (runGeneration ⟨2, 1/100, 1/2, 1/2, 1, 2, 5, 2, 10, 2⟩ [(0, 1)] 1 1
        ⟨[[1/2], [0]], [0, 1]⟩
        ⟨fun i => (i : ℚ), fun _ => [],
         fun k => if k = 0 then ⟨0, 0, 1/2, 1, fun _ => 0, fun _ => 1/4⟩
                  else ⟨1, 1, 1/2, 1, fun _ => 1, fun _ => 0⟩⟩).2 = [0, 1] ∧
    derefInd ⟨((runGeneration ⟨2, 1/100, 1/2, 1/2, 1, 2, 5, 2, 10, 2⟩ [(0, 1)] 1 1
        ⟨[[1/2], [0]], [0, 1]⟩
        ⟨fun i => (i : ℚ), fun _ => [],
         fun k => if k = 0 then ⟨0, 0, 1/2, 1, fun _ => 0, fun _ => 1/4⟩
                  else ⟨1, 1, 1/2, 1, fun _ => 1, fun _ => 0⟩⟩).1).cells, [0, 1]⟩ 0 = [3/4] ∧
    ¬ (([3/4] : Individual) = [1/2]) := by decide

/-- Counterexample to claim C6: with `pop_size = 3`, elite bounds `1`/`1`
(so `elite_size = 1`), fitness `[5, 5, 1]` and both tournaments sampling
`[0, 2]`, the mating pool is `[0, 0, 0, 1]` (two survivors, then the two
tie-included elites `0` and `1`); parent selection reads
`selected_indices[random.randint(0, pop_size - 1)]`, i.e. only positions
`0..2`, so the elite entry `1` at position `3` can never be selected as a
parent. -/
theorem c6_counterexample :
    matingPool ⟨3, 1/100, 1/2, 1/2, 1, 1, 1, 2, 10, 1⟩ 0 [5, 5, 1] (fun _ => [0, 2]) =
      [0, 0, 0, 1] ∧
    1 ∈ eliteIndices 3 [5, 5, 1] 1 ∧
    (∀ r : ℕ, r ≤ 2 → ¬ parentIndex [0, 0, 0, 1] r = 1) := by decide

/-- Counterexample to claim C7: with `pop_size = 2` and three seed
Individuals, seeding (lines 988-992) pads with `range(2 - 3) = range(-1)`,
i.e. zero random Individuals, and keeps all three seeds, so generation 0
starts with `3 ≠ 2` members. -/
theorem c7_counterexample :
    seedPopulation 2 [[1], [2], [3]] (fun _ => [0]) = some [[3], [2], [1]] ∧
    ¬ (([[3], [2], [1]] : List Individual).length = 2) := by decide

/-- Counterexample to claim C8: with `pop_size = 1` neither branch of lines
985-992 assigns `population` (the `initial_values is None` branch is dead
and the `elif pop_size > 1` guard fails), so seeding produces NO initial
population at all — with seeds as well as without. -/
theorem c8_counterexample :
    seedPopulation 1 [[1], [2]] (fun _ => [0]) = none ∧
    seedPopulation 1 [] (fun _ => [0]) = none := by decide

/-- Counterexample to claim C9: two resume entries parse, in file order, to
the seed vectors `[[1], [2]]`, but the prepend loop of line 992 reverses
them: with `pop_size = 3` the initial population is `[[2], [1], [0]]`, so
the `0`-th entry of the file (`[1]`) is NOT the `0`-th seed Individual. -/
theorem c9_counterexample :
    seedIndividuals [0] [[(0, 1)], [(0, 2)]] = some [[1], [2]] ∧
    seedPopulation 3 [[1], [2]] (fun _ => [0]) = some [[2], [1], [0]] ∧
    ¬ (([[2], [1], [0]] : List Individual).getD 0 [] = [1]) := by decide

/-- Counterexample to claim C10: a base configuration holding the unknown
key `1` (no metadata entry) makes construction fail with a `KeyError` at
the bound-array comprehension (line 950), modelled as `none`; removing the
unknown key, the same construction succeeds.  So unknown base-configuration
keys are NOT tolerated. -/
theorem c10_counterexample :
    buildGeneSpace [(0, true, 0, 1)] [(0, 1/2)] = some ([(0, 1/2)], [0], [1]) ∧
    buildGeneSpace [(0, true, 0, 1)] [(0, 1/2), (1, 3)] = none := by decide

lemma seedPopulation_foldl (l : List Individual) :
    ∀ init : List Individual,
      l.foldl (fun population iv => [iv] ++ population) init = l.reverse ++ init := by
  induction l with
  | nil => intro init; simp
  | cons x xs ih => intro init; simp [List.foldl_cons, ih]

/-- Claim C8 (amended): when `1 < pop_size ≤ #seeds`, all seeds are kept
(in reversed order) and no random Individuals are added; when
`pop_size = 1`, no random padding occurs but also NO initial population is
produced at all — the `population` variable is never assigned, and the run
fails at its first use. -/
theorem c8_seeding (pop_size : ℕ) (seeds : List Individual) (randoms : ℕ → Individual)
    (h1 : 1 < pop_size) (hk : pop_size ≤ seeds.length) :
    seedPopulation pop_size seeds randoms = some seeds.reverse ∧
    (∀ (s : List Individual) (r : ℕ → Individual), seedPopulation 1 s r = none) := by
  constructor
  · unfold seedPopulation
    rw [if_pos h1, Nat.sub_eq_zero_of_le hk]
    simp [seedPopulation_foldl]
  · intro s r; rfl

/-- Witness for the amended C8: three seeds, `pop_size = 2`. -/
theorem c8_seeding_witness :
    seedPopulation 2 [[1], [2], [3]] (fun _ => [0]) =
      some ([[1], [2], [3]] : List Individual).reverse :=
  (c8_seeding 2 [[1], [2], [3]] (fun _ => [0]) (by decide) (by decide)).1

lemma nextGen_foldl_length (cfg : GAConfig) (gene_ranges : List (ℚ × ℚ)) (numGenes g : ℕ)
    (selected_indices : List ℕ) (population : List ℕ) (crs : ℕ → ChildRand) :
    ∀ (l : List ℕ) (acc : List Individual × List ℕ),
      ((l.foldl (fun acc k =>
          let bc := buildChild cfg gene_ranges numGenes g selected_indices population acc.1 (crs k)
          (bc.1, acc.2 ++ [bc.2])) acc).2).length = acc.2.length + l.length := by
  intro l
  induction l with
  | nil => intro acc; simp
  | cons x xs ih =>
    intro acc
    rw [List.foldl_cons, ih]
    simp
    omega

lemma buildNextGeneration_pop_length (cfg : GAConfig) (gene_ranges : List (ℚ × ℚ))
    (numGenes g : ℕ) (selected_indices : List ℕ) (st : GAState) (crs : ℕ → ChildRand) :
    (buildNextGeneration cfg gene_ranges numGenes g selected_indices st crs).population.length =
      cfg.pop_size := by
  unfold buildNextGeneration
  rw [nextGen_foldl_length]
  simp

/-- Claim C7 (amended): provided `pop_size > 1` and the number of seeds is
at most `pop_size`, the population holds exactly `pop_size` Individuals at
the start of every generation — seeding fills generation 0 up to exactly
`pop_size`, and every later generation consists of the `pop_size` children
built by the variation loop (the latter unconditionally).  With more than
`pop_size` seeds, generation 0 instead starts with one Individual per seed
(see the counterexample). -/
theorem c7_population_size (cfg : GAConfig) (gene_ranges : List (ℚ × ℚ)) (numGenes : ℕ)
    (R : ℕ → GenRand) (seeds : List Individual) (randoms : ℕ → Individual)
    (pop : List Individual)
    (h1 : 1 < cfg.pop_size) (hk : seeds.length ≤ cfg.pop_size)
    (hseed : seedPopulation cfg.pop_size seeds randoms = some pop) :
    pop.length = cfg.pop_size ∧
    (evolveState cfg gene_ranges numGenes R (initialState pop) 0).population.length =
      cfg.pop_size ∧
    (∀ g : ℕ, 1 ≤ g →
      (evolveState cfg gene_ranges numGenes R (initialState pop) g).population.length =
        cfg.pop_size) := by
  have hlen : pop.length = cfg.pop_size := by
    unfold seedPopulation at hseed
    rw [if_pos h1] at hseed
    rw [seedPopulation_foldl] at hseed
    have := congrArg List.length (Option.some.inj hseed)
    simp at this
    omega
  refine ⟨hlen, by simp [evolveState, initialState, hlen], fun g hg => ?_⟩
  cases g with
  | zero => omega
  | succ g' =>
    show (runGeneration _ _ _ _ _ _).1.population.length = _
    unfold runGeneration
    exact buildNextGeneration_pop_length ..

/-- Witness for the amended C7: `pop_size = 2`, one seed, one random
Individual; both generation 0 and generation 1 have two members. -/
theorem c7_population_size_witness :
    ([[1], [0]] : List Individual).length = 2 ∧
    (evolveState ⟨2, 1/100, 1/2, 1/2, 1, 2, 5, 2, 10, 1⟩ [(0, 1)] 1
        (fun _ => ⟨fun _ => 0, fun _ => [], fun _ => ⟨0, 0, 0, 1, fun _ => 1, fun _ => 0⟩⟩)
        (initialState [[1], [0]]) 0).population.length = 2 ∧
    (∀ g : ℕ, 1 ≤ g →
      (evolveState ⟨2, 1/100, 1/2, 1/2, 1, 2, 5, 2, 10, 1⟩ [(0, 1)] 1
          (fun _ => ⟨fun _ => 0, fun _ => [], fun _ => ⟨0, 0, 0, 1, fun _ => 1, fun _ => 0⟩⟩)
          (initialState [[1], [0]]) g).population.length = 2) :=
  c7_population_size ⟨2, 1/100, 1/2, 1/2, 1, 2, 5, 2, 10, 1⟩ [(0, 1)] 1
    (fun _ => ⟨fun _ => 0, fun _ => [], fun _ => ⟨0, 0, 0, 1, fun _ => 1, fun _ => 0⟩⟩)
    [[1]] (fun _ => [0]) [[1], [0]] (by decide) (by decide) (by decide)

lemma seedIndividuals_spec (keys : List ℕ) :
    ∀ (entries : List (List (ℕ × ℚ))) (ivs : List Individual),
      seedIndividuals keys entries = some ivs →
      ivs.length = entries.length ∧
      ∀ i, i < entries.length →
        keys.mapM (lookupGene (entries.getD i [])) = some (ivs.getD i []) := by
  intro entries
  induction entries with
  | nil =>
    intro ivs h
    unfold seedIndividuals at h
    rw [List.mapM_nil] at h
    have h' : ([] : List Individual) = ivs := Option.some.inj h
    subst h'
    simp
  | cons x xs ih =>
    intro ivs h
    unfold seedIndividuals at h
    rw [List.mapM_cons] at h
    cases hfx : keys.mapM (lookupGene x) with
    | none => rw [hfx] at h; simp at h
    | some b =>
      rw [hfx] at h
      cases hxs : xs.mapM (fun entry => keys.mapM (lookupGene entry)) with
      | none => rw [hxs] at h; simp at h
      | some bs =>
        rw [hxs] at h
        simp at h
        obtain ⟨hlen, hspec⟩ := ih bs hxs
        subst h
        refine ⟨by simp [hlen], fun i hi => ?_⟩
        cases i with
        | zero => simpa using hfx
        | succ i' =>
          simp only [List.getD_cons_succ]
          exact hspec i' (by simpa using hi)

lemma getD_reverse_pos (l : List Individual) (i : ℕ) (h : i < l.length) :
    l.reverse.getD (l.length - 1 - i) [] = l.getD i [] := by
  have h1 : l.length - 1 - i < l.length := by omega
  rw [List.getD_eq_getElem?_getD, List.getD_eq_getElem?_getD,
    List.getElem?_reverse h1]
  have : l.length - 1 - (l.length - 1 - i) = i := by omega
  rw [this]

/-- Claim C9 (amended): in resume mode with `k ≤ pop_size` entries and
`pop_size > 1`, every entry of the resume file becomes a seed Individual of
generation 0's population verbatim (the vector `[value[k] for k in
hyp_GA.keys()]` of the entry), but the order is REVERSED by the prepend
loop of line 992: the `i`-th of the `k` entries appears as the
`(k - 1 - i)`-th Individual of the initial population. -/
theorem c9_resume_order (keys : List ℕ) (entries : List (List (ℕ × ℚ)))
    (ivs : List Individual) (pop_size : ℕ) (randoms : ℕ → Individual)
    (hparse : seedIndividuals keys entries = some ivs)
    (h1 : 1 < pop_size) (hk : ivs.length ≤ pop_size) :
    ivs.length = entries.length ∧
    (∀ i, i < entries.length →
      keys.mapM (lookupGene (entries.getD i [])) = some (ivs.getD i [])) ∧
    ∃ pop, seedPopulation pop_size ivs randoms = some pop ∧
      ∀ i, i < ivs.length → pop.getD (ivs.length - 1 - i) [] = ivs.getD i [] := by
  obtain ⟨hlen, hspec⟩ := seedIndividuals_spec keys entries ivs hparse
  refine ⟨hlen, hspec,
    ivs.reverse ++ (List.range (pop_size - ivs.length)).map randoms, ?_, ?_⟩
  · unfold seedPopulation
    rw [if_pos h1, seedPopulation_foldl]
  · intro i hi
    rw [List.getD_eq_getElem?_getD, List.getElem?_append_left (by simp; omega),
      ← List.getD_eq_getElem?_getD]
    exact getD_reverse_pos ivs i hi

/-- Witness for the amended C9: two entries over one gene name, resumed
into `pop_size = 3`; entry `0` parses to `[1]` and sits at position `1`,
entry `1` parses to `[2]` and sits at position `0`. -/
theorem c9_resume_order_witness :
    ([[1], [2]] : List Individual).length = ([[(0, 1)], [(0, 2)]] : List (List (ℕ × ℚ))).length ∧
    (∀ i, i < ([[(0, 1)], [(0, 2)]] : List (List (ℕ × ℚ))).length →
      [0].mapM (lookupGene (([[(0, 1)], [(0, 2)]] : List (List (ℕ × ℚ))).getD i [])) =
        some (([[1], [2]] : List Individual).getD i [])) ∧
    ∃ pop, seedPopulation 3 [[1], [2]] (fun _ => [0]) = some pop ∧
      ∀ i, i < ([[1], [2]] : List Individual).length →
        pop.getD (([[1], [2]] : List Individual).length - 1 - i) [] =
          ([[1], [2]] : List Individual).getD i [] :=
  c9_resume_order [0] [[(0, 1)], [(0, 2)]] [[1], [2]] 3 (fun _ => [0])
    (by decide) (by decide) (by decide)

lemma getD_mem_of_lt {l : List ℕ} {i : ℕ} (h : i < l.length) : l.getD i 0 ∈ l := by
  rw [List.getD_eq_getElem?_getD, List.getElem?_eq_getElem h]
  simpa using List.getElem_mem h

/-- Claim C6 (amended): both parent indices are drawn independently and
uniformly with replacement from the FIRST `pop_size` positions of the
mating pool (survivors followed by elites): when the pool has exactly
`pop_size` entries, every element — elites included — can be selected, and
every valid draw lands within the first `pop_size` entries; entries at
positions `≥ pop_size` (trailing tie-included elites) can never be
selected (see the counterexample). -/
theorem c6_parent_selection (pop_size : ℕ) (pool : List ℕ) (hpop : 0 < pop_size) :
    (pool.length = pop_size →
      ∀ k, k < pool.length →
        ∃ r : ℕ, r ≤ pop_size - 1 ∧ parentIndex pool r = pool.getD k 0) ∧
    (pop_size ≤ pool.length →
      ∀ r : ℕ, r ≤ pop_size - 1 → parentIndex pool r ∈ pool.take pop_size) := by
  constructor
  · intro hlen k hk
    exact ⟨k, by omega, rfl⟩
  · intro hle r hr
    have hrp : r < pop_size := by omega
    unfold parentIndex
    have h1 : r < (pool.take pop_size).length := by simp; omega
    rw [List.getD_eq_getElem?_getD, ← List.getElem?_take_of_lt hrp,
      ← List.getD_eq_getElem?_getD]
    exact getD_mem_of_lt h1

/-- Witness for the amended C6 on the counterexample pool `[0, 0, 0, 1]`
with `pop_size = 3`. -/
theorem c6_parent_selection_witness :
    parentIndex [0, 0, 0, 1] 2 ∈ ([0, 0, 0, 1] : List ℕ).take 3 :=
  (c6_parent_selection 3 [0, 0, 0, 1] (by decide)).2 (by decide) 2 (by decide)

lemma mapM_isSome_iff {α β : Type} (f : α → Option β) :
    ∀ l : List α, (∃ r, l.mapM f = some r) ↔ ∀ a ∈ l, ∃ b, f a = some b := by
  intro l
  induction l with
  | nil =>
    simp only [List.mapM_nil]
    constructor
    · intro _ a ha
      cases ha
    · intro _
      exact ⟨[], rfl⟩
  | cons x xs ih =>
    constructor
    · rintro ⟨r, hr⟩
      rw [List.mapM_cons] at hr
      cases hfx : f x with
      | none => rw [hfx] at hr; simp at hr
      | some b =>
        rw [hfx] at hr
        cases hxs : xs.mapM f with
        | none => rw [hxs] at hr; simp at hr
        | some bs =>
          intro a ha
          rcases List.mem_cons.mp ha with h | h
          · exact ⟨b, h ▸ hfx⟩
          · exact (ih.mp ⟨bs, hxs⟩) a h
    · intro h
      obtain ⟨b, hb⟩ := h x (by simp)
      obtain ⟨bs, hbs⟩ := ih.mpr (fun a ha => h a (by simp [ha]))
      exact ⟨b :: bs, by rw [List.mapM_cons, hb, hbs]; rfl⟩

lemma mem_delKeys_iff (meta0 : List (ℕ × Bool × ℚ × ℚ)) (k : ℕ) :
    k ∈ delKeys meta0 ↔ ∃ m ∈ meta0, m.2.1 = false ∧ m.1 = k := by
  unfold delKeys
  simp [List.mem_map, List.mem_filter, and_assoc]

lemma metaLookup_isSome_iff (meta0 : List (ℕ × Bool × ℚ × ℚ)) (e : ℕ × ℚ) :
    (∃ b, metaLookup meta0 e = some b) ↔ ∃ m ∈ metaKept meta0, m.1 = e.1 := by
  unfold metaLookup
  cases hfind : (metaKept meta0).find? (fun m => decide (m.1 = e.1)) with
  | none =>
    simp only [hfind, Option.map_none']
    constructor
    · rintro ⟨b, hb⟩; cases hb
    · rintro ⟨m, hm, hkey⟩
      have := List.find?_eq_none.mp hfind m hm
      simp [hkey] at this
  | some m =>
    simp only [hfind, Option.map_some']
    constructor
    · intro _
      exact ⟨m, List.mem_of_find?_eq_some hfind, by simpa using List.find?_some hfind⟩
    · intro _; exact ⟨m.2, rfl⟩

/-- Claim C10 (amended): Gene Space construction is NOT lenient toward
base-configuration keys without metadata: construction succeeds exactly
when every non-mutable metadata key occurs in the base configuration AND
every base-configuration key has a metadata entry; a base-configuration key
with no metadata entry makes construction fail (`KeyError` building the
bound arrays, see the counterexample).  The lenient direction is the
opposite one: a mutable metadata entry whose key is absent from the base
configuration is silently ignored.  On success, every evolved gene comes
from the base configuration and has a mutable metadata entry. -/
theorem c10_gene_space (meta0 : List (ℕ × Bool × ℚ × ℚ)) (hyp : List (ℕ × ℚ)) :
    ((∃ r, buildGeneSpace meta0 hyp = some r) ↔
      ((∀ m ∈ meta0, m.2.1 = false → ∃ e ∈ hyp, e.1 = m.1) ∧
       (∀ e ∈ hyp, ∃ m ∈ meta0, m.1 = e.1))) ∧
    (∀ r, buildGeneSpace meta0 hyp = some r →
      ∀ e ∈ r.1, e ∈ hyp ∧ ∃ m ∈ meta0, m.1 = e.1 ∧ m.2.1 = true) := by
  have hkept : ∀ m ∈ metaKept meta0, m ∈ meta0 ∧ ¬ m.1 ∈ delKeys meta0 := by
    intro m hm
    have := List.mem_filter.mp hm
    simpa using this
  have hkeptTrue : ∀ m ∈ metaKept meta0, m.2.1 = true := by
    intro m hm
    obtain ⟨hm0, hnd⟩ := hkept m hm
    cases hval : m.2.1 with
    | false => exact absurd ((mem_delKeys_iff meta0 m.1).mpr ⟨m, hm0, hval, rfl⟩) hnd
    | true => rfl
  have hhyp : ∀ e ∈ hypKept meta0 hyp, e ∈ hyp ∧ ¬ e.1 ∈ delKeys meta0 := by
    intro e he
    have := List.mem_filter.mp he
    simpa using this
  constructor
  · constructor
    · rintro ⟨r, hr⟩
      unfold buildGeneSpace at hr
      by_cases hcond : (delKeys meta0).all (fun k => hyp.any (fun e => decide (e.1 = k))) = true
      · rw [if_pos hcond] at hr
        have hall := List.all_eq_true.mp hcond
        refine ⟨fun m hm hfalse => ?_, fun e he => ?_⟩
        · have hk : m.1 ∈ delKeys meta0 := (mem_delKeys_iff meta0 m.1).mpr ⟨m, hm, hfalse, rfl⟩
          have := hall _ hk
          simpa [List.any_eq_true] using this
        · by_cases hdel : e.1 ∈ delKeys meta0
          · obtain ⟨m, hm, _, hkey⟩ := (mem_delKeys_iff meta0 e.1).mp hdel
            exact ⟨m, hm, hkey⟩
          · have heGA : e ∈ hypKept meta0 hyp := by
              unfold hypKept
              rw [List.mem_filter]
              simpa using ⟨he, hdel⟩
            cases hmap : (hypKept meta0 hyp).mapM (metaLookup meta0) with
            | none => rw [hmap] at hr; cases hr
            | some metas =>
              obtain ⟨b, hb⟩ := (mapM_isSome_iff (metaLookup meta0) _).mp ⟨metas, hmap⟩ e heGA
              obtain ⟨m, hm, hkey⟩ := (metaLookup_isSome_iff meta0 e).mp ⟨b, hb⟩
              exact ⟨m, (hkept m hm).1, hkey⟩
      · rw [if_neg hcond] at hr; cases hr
    · rintro ⟨hA, hB⟩
      have hcond : (delKeys meta0).all (fun k => hyp.any (fun e => decide (e.1 = k))) = true := by
        rw [List.all_eq_true]
        intro k hk
        obtain ⟨m, hm, hfalse, hkey⟩ := (mem_delKeys_iff meta0 k).mp hk
        obtain ⟨e, he, hkey'⟩ := hA m hm hfalse
        rw [List.any_eq_true]
        exact ⟨e, he, by simp [hkey', hkey]⟩
      have hmapS : ∃ metas, (hypKept meta0 hyp).mapM (metaLookup meta0) = some metas := by
        apply (mapM_isSome_iff (metaLookup meta0) (hypKept meta0 hyp)).mpr
        intro e he
        obtain ⟨he0, hnd⟩ := hhyp e he
        obtain ⟨m, hm, hkey⟩ := hB e he0
        refine (metaLookup_isSome_iff meta0 e).mpr ⟨m, ?_, hkey⟩
        unfold metaKept
        rw [List.mem_filter]
        simpa [hkey] using ⟨hm, hnd⟩
      obtain ⟨metas, hmap⟩ := hmapS
      refine ⟨(hypKept meta0 hyp, metas.map (fun v => v.2.1), metas.map (fun v => v.2.2)), ?_⟩
      unfold buildGeneSpace
      rw [if_pos hcond, hmap]
  · intro r hr e he
    unfold buildGeneSpace at hr
    by_cases hcond : (delKeys meta0).all (fun k => hyp.any (fun e => decide (e.1 = k))) = true
    · rw [if_pos hcond] at hr
      cases hmap : (hypKept meta0 hyp).mapM (metaLookup meta0) with
      | none => rw [hmap] at hr; cases hr
      | some metas =>
        rw [hmap] at hr
        have hr1 : r.1 = hypKept meta0 hyp := by
          have := Option.some.inj hr
          rw [← this]
        rw [hr1] at he
        obtain ⟨he0, _⟩ := hhyp e he
        obtain ⟨b, hb⟩ := (mapM_isSome_iff (metaLookup meta0) _).mp ⟨metas, hmap⟩ e he
        obtain ⟨m, hm, hkey⟩ := (metaLookup_isSome_iff meta0 e).mp ⟨b, hb⟩
        exact ⟨he0, m, (hkept m hm).1, hkey, hkeptTrue m hm⟩
    · rw [if_neg hcond] at hr; cases hr

/-- Witness for the amended C10 at the counterexample inputs: with base
configuration `[(0, 1/2), (1, 3)]` and metadata `[(0, true, 0, 1)]`,
construction fails because key `1` has no metadata entry. -/
theorem c10_gene_space_witness :
    ¬ (∃ r, buildGeneSpace [(0, true, 0, 1)] [(0, 1/2), (1, 3)] = some r) := by
  intro hsome
  have h := ((c10_gene_space [(0, true, 0, 1)] [(0, 1/2), (1, 3)]).1.mp hsome).2
  have h1 := h (1, 3) (by decide)
  rcases h1 with ⟨m, hm, hkey⟩
  have : m = (0, true, (0 : ℚ), (1 : ℚ)) := by simpa using hm
  rw [this] at hkey
  exact absurd hkey (by decide)

lemma getD_mem {α : Type _} {l : List α} {i : ℕ} {d : α} (h : i < l.length) : l.getD i d ∈ l := by
  rw [List.getD_eq_getElem?_getD, List.getElem?_eq_getElem h]
  simpa using List.getElem_mem h

lemma getD_eq_default_of_le {α : Type _} {l : List α} {i : ℕ} {d : α} (h : l.length ≤ i) :
    l.getD i d = d := by
  rw [List.getD_eq_getElem?_getD, List.getElem?_eq_none h]
  rfl

lemma rangesOK_getD {gene_ranges : List (ℚ × ℚ)} (hr : RangesOK gene_ranges) (j : ℕ) :
    (gene_ranges.getD j (0, 0)).1 ≤ (gene_ranges.getD j (0, 0)).2 := by
  by_cases h : j < gene_ranges.length
  · exact hr _ (getD_mem h)
  · rw [getD_eq_default_of_le (by omega)]

lemma clampGene_mem {p : ℚ × ℚ} (h : p.1 ≤ p.2) (v : ℚ) :
    p.1 ≤ clampGene p v ∧ clampGene p v ≤ p.2 :=
  ⟨le_min (le_max_right v p.1) h, min_le_right _ _⟩

lemma InBounds.set {gene_ranges : List (ℚ × ℚ)} {v : Individual} {j : ℕ} {w : ℚ}
    (hv : InBounds gene_ranges v)
    (hw : (gene_ranges.getD j (0, 0)).1 ≤ w ∧ w ≤ (gene_ranges.getD j (0, 0)).2) :
    InBounds gene_ranges (v.set j w) := by
  intro i hi
  rw [List.length_set] at hi
  by_cases hij : i = j
  · subst hij
    have hval : (v.set i w).getD i 0 = w := by
      rw [List.getD_eq_getElem?_getD, List.getElem?_set_self hi]
      rfl
    rw [hval]
    exact hw
  · have hval : (v.set j w).getD i 0 = v.getD i 0 := by
      rw [List.getD_eq_getElem?_getD, List.getElem?_set_ne (by omega),
        ← List.getD_eq_getElem?_getD]
    rw [hval]
    exact hv i hi

lemma mutate_fold_ok {gene_ranges : List (ℚ × ℚ)} {rate : ℚ} {mutU mutD : ℕ → ℚ}
    {numGenes : ℕ} (hr : RangesOK gene_ranges) (cid : ℕ) :
    ∀ (js : List ℕ) (cells : List Individual),
      (∀ c ∈ cells, c.length = numGenes ∧ InBounds gene_ranges c) →
      ∀ c ∈ js.foldl
        (fun cs j =>
          if mutU j < rate then
            cs.set cid ((cs.getD cid []).set j (clampGene (gene_ranges.getD j (0, 0))
              ((cs.getD cid []).getD j 0 + mutD j)))
          else cs) cells,
        c.length = numGenes ∧ InBounds gene_ranges c := by
  intro js
  induction js with
  | nil => intro cells h; simpa using h
  | cons j js ih =>
    intro cells h
    rw [List.foldl_cons]
    apply ih
    by_cases hm : mutU j < rate
    · rw [if_pos hm]
      by_cases hcid : cid < cells.length
      · obtain ⟨hvlen, hvb⟩ := h _ (getD_mem hcid)
        intro c hc
        rcases List.mem_or_eq_of_mem_set hc with hc | hc
        · exact h c hc
        · subst hc
          refine ⟨by rw [List.length_set]; exact hvlen, ?_⟩
          exact InBounds.set hvb (clampGene_mem (rangesOK_getD hr j) _)
      · rw [List.set_eq_of_length_le (by omega)]
        exact h
    · rw [if_neg hm]
      exact h

lemma mutateCellGenes_ok {gene_ranges : List (ℚ × ℚ)} {rate : ℚ} {mutU mutD : ℕ → ℚ}
    {numGenes cid : ℕ} {cells : List Individual} (hr : RangesOK gene_ranges)
    (h : ∀ c ∈ cells, c.length = numGenes ∧ InBounds gene_ranges c) :
    ∀ c ∈ mutateCellGenes gene_ranges rate mutU mutD numGenes cid cells,
      c.length = numGenes ∧ InBounds gene_ranges c :=
  mutate_fold_ok hr cid (List.range numGenes) cells h

lemma mutate_fold_length {gene_ranges : List (ℚ × ℚ)} {rate : ℚ} {mutU mutD : ℕ → ℚ}
    (cid : ℕ) :
    ∀ (js : List ℕ) (cells : List Individual),
      (js.foldl
        (fun cs j =>
          if mutU j < rate then
            cs.set cid ((cs.getD cid []).set j (clampGene (gene_ranges.getD j (0, 0))
              ((cs.getD cid []).getD j 0 + mutD j)))
          else cs) cells).length = cells.length := by
  intro js
  induction js with
  | nil => intro cells; rfl
  | cons j js ih =>
    intro cells
    rw [List.foldl_cons, ih]
    by_cases hm : mutU j < rate
    · rw [if_pos hm, List.length_set]
    · rw [if_neg hm]

lemma mutateCellGenes_length (gene_ranges : List (ℚ × ℚ)) (rate : ℚ) (mutU mutD : ℕ → ℚ)
    (numGenes cid : ℕ) (cells : List Individual) :
    (mutateCellGenes gene_ranges rate mutU mutD numGenes cid cells).length = cells.length :=
  mutate_fold_length cid (List.range numGenes) cells

lemma deref_id_lt {cells : List Individual} {population : List ℕ}
    (hpop : population ≠ []) (hids : ∀ id ∈ population, id < cells.length) (i : ℕ) :
    population.getD i 0 < cells.length := by
  by_cases hi : i < population.length
  · exact hids _ (getD_mem hi)
  · rw [getD_eq_default_of_le (by omega)]
    obtain ⟨a, ha⟩ := List.exists_mem_of_ne_nil population hpop
    exact Nat.lt_of_le_of_lt (Nat.zero_le a) (hids a ha)

lemma crossChild_ok {gene_ranges : List (ℚ × ℚ)} {p1 p2 : Individual} {numGenes : ℕ}
    (cut : ℕ) (h1 : p1.length = numGenes) (hb1 : InBounds gene_ranges p1)
    (h2 : p2.length = numGenes) (hb2 : InBounds gene_ranges p2) :
    (p1.take cut ++ p2.drop cut).length = numGenes ∧
    InBounds gene_ranges (p1.take cut ++ p2.drop cut) := by
  by_cases hcut : cut ≤ numGenes
  · have htl : (p1.take cut).length = cut := by
      rw [List.length_take, h1]
      omega
    have hlen : (p1.take cut ++ p2.drop cut).length = numGenes := by
      rw [List.length_append, htl, List.length_drop, h2]
      omega
    refine ⟨hlen, ?_⟩
    intro j hj
    rw [hlen] at hj
    by_cases hjc : j < cut
    · have hval : (p1.take cut ++ p2.drop cut).getD j 0 = p1.getD j 0 := by
        rw [List.getD_eq_getElem?_getD, List.getElem?_append_left (by omega),
          List.getElem?_take_of_lt hjc, ← List.getD_eq_getElem?_getD]
      rw [hval]
      exact hb1 j (by omega)
    · have hval : (p1.take cut ++ p2.drop cut).getD j 0 = p2.getD j 0 := by
        rw [List.getD_eq_getElem?_getD, List.getElem?_append_right (by omega), htl,
          List.getElem?_drop]
        have hidx : cut + (j - cut) = j := by omega
        rw [hidx, ← List.getD_eq_getElem?_getD]
      rw [hval]
      exact hb2 j (by omega)
  · have hd : p2.drop cut = [] := List.drop_eq_nil_of_le (by omega)
    have ht : p1.take cut = p1 := List.take_of_length_le (by omega)
    rw [hd, ht, List.append_nil]
    exact ⟨h1, hb1⟩

lemma buildChild_ok (cfg : GAConfig) (gene_ranges : List (ℚ × ℚ)) (numGenes g : ℕ)
    (pool population : List ℕ) (cells : List Individual) (cr : ChildRand)
    (hr : RangesOK gene_ranges)
    (hcells : ∀ c ∈ cells, c.length = numGenes ∧ InBounds gene_ranges c)
    (hpop : population ≠ []) (hids : ∀ id ∈ population, id < cells.length) :
    (∀ c ∈ (buildChild cfg gene_ranges numGenes g pool population cells cr).1,
      c.length = numGenes ∧ InBounds gene_ranges c) ∧
    cells.length ≤ (buildChild cfg gene_ranges numGenes g pool population cells cr).1.length ∧
    (buildChild cfg gene_ranges numGenes g pool population cells cr).2 <
      (buildChild cfg gene_ranges numGenes g pool population cells cr).1.length := by
  have hp1 := hcells (cells.getD (population.getD (parentIndex pool cr.r1) 0) [])
    (getD_mem (deref_id_lt hpop hids (parentIndex pool cr.r1)))
  have hp2 := hcells (cells.getD (population.getD (parentIndex pool cr.r2) 0) [])
    (getD_mem (deref_id_lt hpop hids (parentIndex pool cr.r2)))
  simp only [buildChild]
  split
  · refine ⟨?_, ?_, ?_⟩
    · apply mutateCellGenes_ok hr
      intro c hc
      rcases List.mem_append.mp hc with hc | hc
      · exact hcells c hc
      · rw [List.mem_singleton.mp hc]
        exact crossChild_ok cr.cut hp1.1 hp1.2 hp2.1 hp2.2
    · rw [mutateCellGenes_length]
      simp
    · rw [mutateCellGenes_length]
      simp
  · refine ⟨mutateCellGenes_ok hr hcells, ?_, ?_⟩
    · rw [mutateCellGenes_length]
    · rw [mutateCellGenes_length]
      exact deref_id_lt hpop hids _

lemma nextGen_fold_ok (cfg : GAConfig) (gene_ranges : List (ℚ × ℚ)) (numGenes g : ℕ)
    (pool population : List ℕ) (crs : ℕ → ChildRand)
    (hr : RangesOK gene_ranges) (hpop : population ≠ [])
    (base : ℕ) (hbase : ∀ id ∈ population, id < base) :
    ∀ (ks : List ℕ) (acc : List Individual × List ℕ),
      (∀ c ∈ acc.1, c.length = numGenes ∧ InBounds gene_ranges c) →
      base ≤ acc.1.length →
      (∀ id ∈ acc.2, id < acc.1.length) →
      (∀ c ∈ (ks.foldl (fun acc k =>
          let bc := buildChild cfg gene_ranges numGenes g pool population acc.1 (crs k)
          (bc.1, acc.2 ++ [bc.2])) acc).1,
        c.length = numGenes ∧ InBounds gene_ranges c) ∧
      base ≤ (ks.foldl (fun acc k =>
          let bc := buildChild cfg gene_ranges numGenes g pool population acc.1 (crs k)
          (bc.1, acc.2 ++ [bc.2])) acc).1.length ∧
      (∀ id ∈ (ks.foldl (fun acc k =>
          let bc := buildChild cfg gene_ranges numGenes g pool population acc.1 (crs k)
          (bc.1, acc.2 ++ [bc.2])) acc).2,
        id < (ks.foldl (fun acc k =>
          let bc := buildChild cfg gene_ranges numGenes g pool population acc.1 (crs k)
          (bc.1, acc.2 ++ [bc.2])) acc).1.length) := by
  intro ks
  induction ks with
  | nil => intro acc h1 h2 h3; exact ⟨h1, h2, h3⟩
  | cons k ks ih =>
    intro acc h1 h2 h3
    rw [List.foldl_cons]
    obtain ⟨hm, hle, hcid⟩ :=
      buildChild_ok cfg gene_ranges numGenes g pool population acc.1 (crs k) hr h1 hpop
        (fun id hid => Nat.lt_of_lt_of_le (hbase id hid) h2)
    apply ih
    · exact hm
    · exact le_trans h2 hle
    · intro id hid
      rcases List.mem_append.mp hid with hid | hid
      · exact Nat.lt_of_lt_of_le (h3 id hid) hle
      · rw [List.mem_singleton.mp hid]
        exact hcid

lemma buildNextGeneration_ok (cfg : GAConfig) (gene_ranges : List (ℚ × ℚ)) (numGenes g : ℕ)
    (pool : List ℕ) (st : GAState) (crs : ℕ → ChildRand)
    (hr : RangesOK gene_ranges) (hwf : WFState gene_ranges numGenes st)
    (hpos : 0 < cfg.pop_size) :
    WFState gene_ranges numGenes (buildNextGeneration cfg gene_ranges numGenes g pool st crs) := by
  obtain ⟨hcells, hpop, hids⟩ := hwf
  have key := nextGen_fold_ok cfg gene_ranges numGenes g pool st.population crs hr hpop
    st.cells.length hids (List.range cfg.pop_size) (st.cells, ([] : List ℕ)) hcells
    (le_refl _) (by intro id hid; cases hid)
  have hne : (buildNextGeneration cfg gene_ranges numGenes g pool st crs).population ≠ [] := by
    have hlen := buildNextGeneration_pop_length cfg gene_ranges numGenes g pool st crs
    intro hnil
    rw [hnil] at hlen
    simp at hlen
    omega
  exact ⟨key.1, hne, key.2.2⟩

lemma evolveState_wf (cfg : GAConfig) (gene_ranges : List (ℚ × ℚ)) (numGenes : ℕ)
    (R : ℕ → GenRand) (st0 : GAState)
    (hr : RangesOK gene_ranges) (hpos : 0 < cfg.pop_size)
    (h0 : WFState gene_ranges numGenes st0) :
    ∀ g : ℕ, WFState gene_ranges numGenes (evolveState cfg gene_ranges numGenes R st0 g) := by
  intro g
  induction g with
  | zero => exact h0
  | succ g' ih =>
    show WFState gene_ranges numGenes (runGeneration _ _ _ _ _ _).1
    unfold runGeneration
    exact buildNextGeneration_ok cfg gene_ranges numGenes g' _ _ _ hr ih hpos

lemma uniformQ_mem {a b r : ℚ} (hab : a ≤ b) (h0 : 0 ≤ r) (h1 : r ≤ 1) :
    a ≤ uniformQ a b r ∧ uniformQ a b r ≤ b := by
  unfold uniformQ
  constructor
  · nlinarith
  · nlinarith

lemma generate_individual_ok (input_ranges : List (ℚ × ℚ)) (individual_length : ℕ)
    (rs : ℕ → ℚ) (hr : RangesOK input_ranges) (hrs : ∀ i, 0 ≤ rs i ∧ rs i ≤ 1) :
    (generate_individual input_ranges individual_length rs).length = individual_length ∧
    InBounds input_ranges (generate_individual input_ranges individual_length rs) := by
  have hlen : (generate_individual input_ranges individual_length rs).length =
      individual_length := by
    unfold generate_individual
    rw [List.length_map, List.length_range]
  refine ⟨hlen, ?_⟩
  intro j hj
  rw [hlen] at hj
  have hval : (generate_individual input_ranges individual_length rs).getD j 0 =
      uniformQ (input_ranges.getD j (0, 0)).1 (input_ranges.getD j (0, 0)).2 (rs j) := by
    unfold generate_individual
    rw [List.getD_eq_getElem?_getD, List.getElem?_map, List.getElem?_range hj]
    rfl
  rw [hval]
  exact uniformQ_mem (rangesOK_getD hr j) (hrs j).1 (hrs j).2

/-- Claim C3: for every generation and every Individual of the population
at that point (and for the whole heap, hence also immediately after each
in-place mutation), every gene value lies within `[lower_j, upper_j]`,
provided the gene bounds are ordered and the initial population is within
bounds; the clamp of lines 1088-1089 sends a perturbation `+0.15` on a gene
bounded `[0, 0.1]` with pre-mutation value `0.08` to exactly `0.1`; and
randomly generated Individuals are created within bounds. -/
theorem c3_bounds_invariant (cfg : GAConfig) (gene_ranges : List (ℚ × ℚ)) (numGenes : ℕ)
    (R : ℕ → GenRand) (st0 : GAState)
    (hr : RangesOK gene_ranges) (hpos : 0 < cfg.pop_size)
    (h0 : WFState gene_ranges numGenes st0) :
    (∀ g i : ℕ,
      InBounds gene_ranges (derefInd (evolveState cfg gene_ranges numGenes R st0 g) i)) ∧
    clampGene (0, 1/10) (8/100 + 15/100) = 1/10 ∧
    (∀ (input_ranges : List (ℚ × ℚ)) (n : ℕ) (rs : ℕ → ℚ), RangesOK input_ranges →
      (∀ k, 0 ≤ rs k ∧ rs k ≤ 1) →
      InBounds input_ranges (generate_individual input_ranges n rs)) := by
  refine ⟨fun g i => ?_, by decide,
    fun ir n rs h1 h2 => (generate_individual_ok ir n rs h1 h2).2⟩
  obtain ⟨hcells, hpop, hids⟩ := evolveState_wf cfg gene_ranges numGenes R st0 hr hpos h0 g
  exact (hcells _ (getD_mem (deref_id_lt hpop hids i))).2

/-- Witness for C3 (hypotheses discharged on a concrete configuration with
one gene bounded `[0, 1]` and initial population `[[1/2], [0]]`): the
clamping scenario of the claim. -/
theorem c3_bounds_invariant_witness :
    clampGene (0, 1/10) (8/100 + 15/100) = 1/10 :=
  (c3_bounds_invariant ⟨2, 1/100, 1/2, 1/2, 1, 2, 5, 2, 10, 1⟩ [(0, 1)] 1
    (fun _ => ⟨fun _ => 0, fun _ => [], fun _ => ⟨0, 0, 0, 1, fun _ => 1, fun _ => 0⟩⟩)
    ⟨[[1/2], [0]], [0, 1]⟩ (by unfold RangesOK; decide) (by decide)
    (by unfold WFState InBounds; decide)).2.1
